import Mathlib

/- Shallow embedding of hb/runner.py (class NodeProcessor) and proofs about it.
   Python strings are modeled as List Char; a text file is its list of lines,
   a directory is a list of (file name, file content) entries, absence of a
   directory or file is Option.none.  All functions are executable. -/

namespace HB

/-- Python str.strip, as applied to lines and file contents in runner.py:
whitespace removed from both ends. -/
def pyStrip (s : List Char) : List Char :=
  ((s.dropWhile Char.isWhitespace).reverse.dropWhile Char.isWhitespace).reverse

/-- Python str.lower, as applied to a line before prefix matching (runner.py 187). -/
def pyLower (s : List Char) : List Char := s.map Char.toLower

/-- Python s.startswith(p): startsWithL s p is true when p is a leading segment of s. -/
def startsWithL : List Char → List Char → Bool
  | _, [] => true
  | c :: cs, p :: ps => c == p && startsWithL cs ps
  | [], _ => false

/-- Lexicographic code-point order on char lists, modelling the Python string
and path comparison used by sorted(...) in runner.py. -/
def lexLe : List Char → List Char → Bool
  | [], _ => true
  | x :: xs, y :: ys => x.toNat < y.toNat || (x == y && lexLe xs ys)
  | _, [] => false

/-- Model of the watched directory: none when the directory does not exist,
otherwise its entries as (file name, file bytes). -/
abbrev DirEntries := List (List Char × List Nat)

/-- File collection of calculate_hash (runner.py 89-92): for each extension in
the fixed order .txt, .yaml, .yml, the entries with that extension, sorted by
name; glob suffix matching is modeled on reversed names. -/
def collectFiles (entries : DirEntries) : DirEntries :=
  [".txt".data, ".yaml".data, ".yml".data].flatMap (fun ext =>
    (entries.filter (fun f => startsWithL f.1.reverse ext.reverse)).mergeSort
      (fun a b => lexLe a.1 b.1))

/-- Byte stream fed to the hash accumulator (runner.py 94-98): each file
content followed by the bytes of its name (names modeled by code points).
Incremental update calls are modeled as one digest of the concatenation. -/
def hashInput (entries : DirEntries) : List Nat :=
  (collectFiles entries).flatMap (fun f => f.2 ++ f.1.map Char.toNat)

/-- Alphabet of lowercase hexadecimal rendering. -/
def hexAlphabet : List Char := "0123456789abcdef".data

/-- One lowercase hexadecimal digit. -/
def hexChar (n : Nat) : Char := hexAlphabet.getD (n % 16) '0'

/-- Hexdigest rendering of a byte sequence: two lowercase hex digits per byte. -/
def toHex (bytes : List Nat) : List Char :=
  bytes.flatMap (fun b => [hexChar (b / 16), hexChar b])

/-- NodeProcessor.calculate_hash (runner.py 81-102), parametric in the SHA-256
digest function supplied by hashlib: the sentinel "empty" for a missing
directory, otherwise the hex digest of the collected byte stream. -/
def calculate_hash (sha256 : List Nat → List Nat) (dir : Option DirEntries) : List Char :=
  match dir with
  | none => "empty".data
  | some entries => toHex (sha256 (hashInput entries))

/-- NodeProcessor.check_changes (runner.py 104-128), with the marker file
.last_hash passed as explicit state (none when the file does not exist).
Returns ((has_changes, current_hash), new marker content); the marker is
written unconditionally with the freshly computed fingerprint. -/
def check_changes (sha256 : List Nat → List Nat) (dir : Option DirEntries)
    (marker : Option (List Char)) : (Bool × List Char) × List Char :=
  let current_hash := calculate_hash sha256 dir
  let last_hash := marker.map pyStrip
  let has_changes : Bool :=
    match last_hash with
    | none => true
    | some h => h != current_hash
  ((has_changes, current_hash), current_hash)

/-- Text files of the nodes directory: (file name, text content) entries. -/
abbrev TxtFiles := List (List Char × List Char)

/-- Provenance header line for one input file (runner.py 146). -/
def headerOf (name : List Char) : List Char := "# === ".data ++ name ++ " ===".data

/-- Loop body of merge_files (runner.py 141-150): a file whose stripped content
is empty contributes nothing, otherwise header, stripped content and a blank
line are appended to the accumulated merged_content. -/
def mergeStep (acc : List (List Char)) (f : List Char × List Char) : List (List Char) :=
  let content := pyStrip f.2
  if content.isEmpty then acc
  else acc ++ [headerOf f.1, content, []]

/-- NodeProcessor.merge_files (runner.py 130-158): the merged_content list
built from the .txt files sorted by name. -/
def merge_files (files : TxtFiles) : List (List Char) :=
  (files.mergeSort (fun a b => lexLe a.1 b.1)).foldl mergeStep []

/-- Bytes written to output/hb.txt (runner.py 153-155): merged_content joined
by newline. -/
def merged_document (files : TxtFiles) : List Char :=
  List.intercalate ['\n'] (merge_files files)

/-- The fixed protocol table in declaration order (runner.py 164-173). -/
def protocols : List (String × List Char) :=
  [("vless", "vless://".data), ("vmess", "vmess://".data), ("trojan", "trojan://".data),
   ("ss", "ss://".data), ("ssr", "ssr://".data), ("http", "http://".data),
   ("https", "https://".data), ("socks5", "socks5://".data)]

/-- Skip test of the classifier loop (runner.py 182): blank after stripping, or
starting with the comment marker. -/
def skipLine (line : List Char) : Bool := line.isEmpty || startsWithL line "#".data

/-- First protocol of the table whose scheme matches the lowercased line
(runner.py 185-190); none when the line is unmatched. -/
def classifyLine (line : List Char) : Option String :=
  (protocols.find? (fun p => startsWithL (pyLower line) p.2)).map (fun p => p.1)

/-- protocol_content initialised with one empty bucket per protocol (runner.py 175). -/
def initBuckets : List (String × List (List Char)) := protocols.map (fun p => (p.1, []))

/-- Appending a line to the bucket of the matched protocol (runner.py 188). -/
def addLine (key : String) (line : List Char) (bs : List (String × List (List Char))) :
    List (String × List (List Char)) :=
  bs.map (fun b => if b.1 = key then (b.1, b.2 ++ [line]) else b)

/-- One iteration of the classifier loop (runner.py 180-193) on the state
(protocol_content, others). -/
def stepLine (st : List (String × List (List Char)) × List (List Char)) (raw : List Char) :
    List (String × List (List Char)) × List (List Char) :=
  let line := pyStrip raw
  if skipLine line then st
  else
    match classifyLine line with
    | some proto => (addLine proto line st.1, st.2)
    | none => (st.1, st.2 ++ [line])

/-- The classifier loop over the lines of the merged file: final state
(protocol_content, others). -/
def splitLines (lines : List (List Char)) : List (String × List (List Char)) × List (List Char) :=
  lines.foldl stepLine (initBuckets, [])

/-- The files written by split_by_protocol (runner.py 195-209): (name, content)
of each written file in write order; an empty bucket writes nothing, others
is written to other.txt only when non-empty. -/
def writeFiles (st : List (String × List (List Char)) × List (List Char)) :
    List (String × List Char) :=
  (st.1.filter (fun b => !b.2.isEmpty)).map
      (fun b => (b.1 ++ ".txt", List.intercalate ['\n'] b.2))
    ++ (if st.2.isEmpty then [] else [("other.txt", List.intercalate ['\n'] st.2)])

/-- NodeProcessor.split_by_protocol (runner.py 160-212) on the success path:
the output files written for a given sequence of input lines. -/
def split_by_protocol (lines : List (List Char)) : List (String × List Char) :=
  writeFiles (splitLines lines)

/-- Effect of one file write on the output directory (a map name to content). -/
def updateFs (fs : String → Option (List Char)) (out : String × List Char) :
    String → Option (List Char) :=
  fun n => if n = out.1 then some out.2 else fs n

/-- Output directory state after split_by_protocol has written its files. -/
def splitEffect (lines : List (List Char)) (fs : String → Option (List Char)) :
    String → Option (List Char) :=
  (split_by_protocol lines).foldl updateFs fs

/-- Pipeline stages sequenced by NodeProcessor.run. -/
inductive Stage
  | merge
  | classify
  | report
  deriving DecidableEq

/-- The try/except wrapping the whole body of split_by_protocol
(runner.py 178-212): any exception raised inside is logged and swallowed, the
method always returns normally to its caller. -/
def classifyGuard (body : Except String (List (String × List Char))) : Except String Unit :=
  match body with
  | Except.ok _ => Except.ok ()
  | Except.error _ => Except.ok ()

/-- NodeProcessor.run (runner.py 214-245).  The outcome of each stage is passed
as an Except value (error = an exception raised by that stage); the try/except
of run (runner.py 230-245) converts an escaping exception into the result
False.  Returns (result, stages entered in order). -/
def run (sha256 : List Nat → List Nat) (dir : Option DirEntries) (marker : Option (List Char))
    (force : Bool) (merge_result : Except String (List (List Char)))
    (classify_body : List (List Char) → Except String (List (String × List Char)))
    (report_result : Except String Unit) : Bool × List Stage :=
  let has_changes := (check_changes sha256 dir marker).1.1
  if !has_changes && !force then (false, [])
  else
    match merge_result with
    | Except.error _ => (false, [Stage.merge])
    | Except.ok merged =>
      match classifyGuard (classify_body merged) with
      | Except.error _ => (false, [Stage.merge, Stage.classify])
      | Except.ok _ =>
        match report_result with
        | Except.error _ => (false, [Stage.merge, Stage.classify, Stage.report])
        | Except.ok _ => (true, [Stage.merge, Stage.classify, Stage.report])

/-- Exit code of main (runner.py 277-290): sys.exit(0 if success else 1). -/
def main_exit (sha256 : List Nat → List Nat) (dir : Option DirEntries)
    (marker : Option (List Char)) (force : Bool)
    (merge_result : Except String (List (List Char)))
    (classify_body : List (List Char) → Except String (List (String × List Char)))
    (report_result : Except String Unit) : Nat :=
  if (run sha256 dir marker force merge_result classify_body report_result).1 then 0 else 1

/-- Negation of the skip test: the line survives runner.py 182-183. -/
def keepLine (l : List Char) : Bool := !skipLine l

/-- Closed form of a protocol bucket: the stripped kept lines classified to p,
in input order (proved equal to the loop result in splitLines_eq). -/
def bucketOf (lines : List (List Char)) (p : String) : List (List Char) :=
  (lines.map pyStrip).filter (fun l => keepLine l && classifyLine l == some p)

/-- Closed form of the others bucket. -/
def othersOf (lines : List (List Char)) : List (List Char) :=
  (lines.map pyStrip).filter (fun l => keepLine l && classifyLine l == none)

/-- Name of the bucket a kept line is assigned to. -/
def classOf (l : List Char) : String := (classifyLine l).getD "other"

/-- The nine bucket names: the eight protocols and the overflow bucket. -/
def bucketNames : List String := protocols.map (fun p => p.1) ++ ["other"]

/-- Content of a named bucket in the final classifier state. -/
def bucketNamed (lines : List (List Char)) (name : String) : List (List Char) :=
  if name = "other" then (splitLines lines).2
  else
    match (splitLines lines).1.find? (fun b => b.1 = name) with
    | some b => b.2
    | none => []

/-! Characterization of the classifier loop. -/

lemma foldl_stepLine (lines : List (List Char)) (bs : List (String × List (List Char)))
    (os : List (List Char)) :
    lines.foldl stepLine (bs, os) =
      (bs.map (fun b => (b.1, b.2 ++ bucketOf lines b.1)), os ++ othersOf lines) := by
  induction lines generalizing bs os with
  | nil =>
    simp [bucketOf, othersOf]
  | cons l rest ih =>
    by_cases hskip : skipLine (pyStrip l) = true
    · have hstep : stepLine (bs, os) l = (bs, os) := by simp [stepLine, hskip]
      rw [List.foldl_cons, hstep, ih]
      refine Prod.ext ?_ ?_
      · apply List.map_congr_left
        intro b _
        simp [bucketOf, keepLine, List.filter_cons, hskip]
      · simp [othersOf, keepLine, List.filter_cons, hskip]
    · rcases hc : classifyLine (pyStrip l) with _ | proto
      · have hstep : stepLine (bs, os) l = (bs, os ++ [pyStrip l]) := by
          simp [stepLine, hskip, hc]
        rw [List.foldl_cons, hstep, ih]
        refine Prod.ext ?_ ?_
        · apply List.map_congr_left
          intro b _
          simp [bucketOf, keepLine, List.filter_cons, hskip, hc]
        · simp [othersOf, keepLine, List.filter_cons, hskip, hc]
      · have hstep : stepLine (bs, os) l = (addLine proto (pyStrip l) bs, os) := by
          simp [stepLine, hskip, hc]
        rw [List.foldl_cons, hstep, ih]
        refine Prod.ext ?_ ?_
        · show (addLine proto (pyStrip l) bs).map _ = _
          rw [addLine, List.map_map]
          apply List.map_congr_left
          intro b _
          by_cases hb : b.1 = proto
          · simp [Function.comp, hb, bucketOf, keepLine, List.filter_cons, hskip, hc]
          · simp [Function.comp, hb, bucketOf, keepLine, List.filter_cons, hskip, hc,
              Ne.symm hb]
        · simp [othersOf, keepLine, List.filter_cons, hskip, hc]

/-- The final classifier state in closed form. -/
lemma splitLines_eq (lines : List (List Char)) :
    splitLines lines = (protocols.map (fun p => (p.1, bucketOf lines p.1)), othersOf lines) := by
  unfold splitLines initBuckets
  rw [foldl_stepLine]
  simp [List.map_map, Function.comp]

/-- A classification result is always one of the eight protocol names. -/
lemma classify_mem (l : List Char) (p : String) (h : classifyLine l = some p) :
    p ∈ protocols.map (fun q => q.1) := by
  unfold classifyLine at h
  rcases hf : protocols.find? (fun q => startsWithL (pyLower l) q.2) with _ | q
  · rw [hf] at h
    simp at h
  · rw [hf] at h
    simp at h
    subst h
    exact List.mem_map_of_mem _ (List.mem_of_find?_eq_some hf)

lemma other_not_protocol : ("other" : String) ∉ protocols.map (fun q => q.1) := by decide

lemma bucketNamed_other (lines : List (List Char)) :
    bucketNamed lines "other" = othersOf lines := by
  simp [bucketNamed, splitLines_eq]

lemma bucketNamed_proto (lines : List (List Char)) (name : String)
    (h : name ∈ protocols.map (fun q => q.1)) :
    bucketNamed lines name = bucketOf lines name := by
  have h8 : name = "vless" ∨ name = "vmess" ∨ name = "trojan" ∨ name = "ss" ∨
      name = "ssr" ∨ name = "http" ∨ name = "https" ∨ name = "socks5" := by
    simpa [protocols] using h
  obtain hx | hx | hx | hx | hx | hx | hx | hx := h8 <;> subst hx <;>
    simp +decide [bucketNamed, splitLines_eq, protocols, List.find?]

lemma mem_bucketOf (lines : List (List Char)) (l : List Char) (p : String) :
    l ∈ bucketOf lines p ↔
      l ∈ lines.map pyStrip ∧ keepLine l = true ∧ classifyLine l = some p := by
  simp [bucketOf, List.mem_filter, and_assoc]

lemma mem_othersOf (lines : List (List Char)) (l : List Char) :
    l ∈ othersOf lines ↔
      l ∈ lines.map pyStrip ∧ keepLine l = true ∧ classifyLine l = none := by
  simp [othersOf, List.mem_filter, and_assoc]

lemma classOf_mem_bucketNames (l : List Char) : classOf l ∈ bucketNames := by
  rcases hc : classifyLine l with _ | q
  · simp [classOf, hc, bucketNames]
  · simp only [classOf, hc, Option.getD_some]
    exact List.mem_append_left _ (classify_mem l q hc)

lemma mem_bucketNamed (lines : List (List Char)) (l : List Char) (name : String)
    (h : name ∈ bucketNames) :
    l ∈ bucketNamed lines name ↔
      l ∈ lines.map pyStrip ∧ keepLine l = true ∧ classOf l = name := by
  rcases List.mem_append.mp h with hp | ho
  · rw [bucketNamed_proto lines name hp, mem_bucketOf]
    constructor
    · rintro ⟨h1, h2, h3⟩
      exact ⟨h1, h2, by simp [classOf, h3]⟩
    · rintro ⟨h1, h2, h3⟩
      refine ⟨h1, h2, ?_⟩
      rcases hc : classifyLine l with _ | q
      · exfalso
        rw [classOf, hc] at h3
        simp at h3
        subst h3
        exact other_not_protocol hp
      · rw [classOf, hc] at h3
        simp at h3
        rw [h3]
  · have ho2 : name = "other" := by simpa using ho
    subst ho2
    rw [bucketNamed_other, mem_othersOf]
    constructor
    · rintro ⟨h1, h2, h3⟩
      exact ⟨h1, h2, by simp [classOf, h3]⟩
    · rintro ⟨h1, h2, h3⟩
      refine ⟨h1, h2, ?_⟩
      rcases hc : classifyLine l with _ | q
      · rfl
      · exfalso
        rw [classOf, hc] at h3
        simp at h3
        subst h3
        exact other_not_protocol (classify_mem l _ hc)

lemma bucketNamed_sublist (lines : List (List Char)) (name : String)
    (h : name ∈ bucketNames) :
    (bucketNamed lines name).Sublist (lines.map pyStrip) := by
  rcases List.mem_append.mp h with hp | ho
  · rw [bucketNamed_proto lines name hp]
    exact List.filter_sublist _
  · have ho2 : name = "other" := by simpa using ho
    subst ho2
    rw [bucketNamed_other]
    exact List.filter_sublist _

/-- C1: for every merged-document input, every line that is non-blank after
stripping and whose stripped form does not start with the comment marker is
placed by the classifier into exactly one of the nine buckets (the eight
protocol buckets and the other bucket); a line that is blank after stripping
or whose stripped form starts with the comment marker is placed in no bucket;
and each bucket is a sublist of the stripped input lines, so within each
bucket the lines keep their original relative order. -/
theorem c1_classifier_partition (lines : List (List Char)) :
    (∀ raw ∈ lines, keepLine (pyStrip raw) = true →
       ∃! name, name ∈ bucketNames ∧ pyStrip raw ∈ bucketNamed lines name)
  ∧ (∀ raw ∈ lines, skipLine (pyStrip raw) = true →
       ∀ name ∈ bucketNames, pyStrip raw ∉ bucketNamed lines name)
  ∧ (∀ name ∈ bucketNames, (bucketNamed lines name).Sublist (lines.map pyStrip)) := by
  refine ⟨?_, ?_, ?_⟩
  · intro raw hraw hkeep
    refine ⟨classOf (pyStrip raw), ⟨classOf_mem_bucketNames _, ?_⟩, ?_⟩
    · rw [mem_bucketNamed lines _ _ (classOf_mem_bucketNames _)]
      exact ⟨List.mem_map_of_mem _ hraw, hkeep, rfl⟩
    · rintro name ⟨hn, hmem⟩
      rw [mem_bucketNamed lines _ _ hn] at hmem
      exact hmem.2.2.symm
  · intro raw _ hskip name hn hmem
    rw [mem_bucketNamed lines _ _ hn] at hmem
    have := hmem.2.1
    rw [keepLine, hskip] at this
    simp at this
  · exact fun name hn => bucketNamed_sublist lines name hn

/-- Witness for C1 at a concrete merged document. -/
theorem c1_witness :
    ∃! name, name ∈ bucketNames ∧
      pyStrip "vless://Host".data ∈
        bucketNamed ["vless://Host".data, "# note".data, "junk".data] name :=
  (c1_classifier_partition ["vless://Host".data, "# note".data, "junk".data]).1
    "vless://Host".data (by decide) (by decide)

/-- C10: every line stored in a classifier bucket (and hence written to an
output file) is the stripped form of an original input line, with its
character case untouched; and every kept input line is stored verbatim (after
stripping only) in the bucket it is classified to.  Lowercasing happens only
inside classifyLine, never in the stored value. -/
theorem c10_stored_lines (lines : List (List Char)) :
    (∀ name ∈ bucketNames, ∀ l ∈ bucketNamed lines name, ∃ raw ∈ lines, l = pyStrip raw)
  ∧ (∀ raw ∈ lines, keepLine (pyStrip raw) = true →
       pyStrip raw ∈ bucketNamed lines (classOf (pyStrip raw))) := by
  constructor
  · intro name hn l hl
    have := (mem_bucketNamed lines l name hn).mp hl
    rcases List.mem_map.mp this.1 with ⟨raw, hraw, hr⟩
    exact ⟨raw, hraw, hr.symm⟩
  · intro raw hraw hkeep
    rw [mem_bucketNamed lines _ _ (classOf_mem_bucketNames _)]
    exact ⟨List.mem_map_of_mem _ hraw, hkeep, rfl⟩

/-- Witness for C10: a mixed-case line is stored stripped but not lowercased. -/
theorem c10_witness :
    pyStrip "  VLESS://Case  ".data ∈
      bucketNamed ["  VLESS://Case  ".data] (classOf (pyStrip "  VLESS://Case  ".data)) :=
  (c10_stored_lines ["  VLESS://Case  ".data]).2 "  VLESS://Case  ".data
    (by decide) (by decide)

/-! Mutual exclusivity of the scheme prefixes and case-insensitive matching. -/

lemma startsWithL_nil (s : List Char) : startsWithL s [] = true := by
  cases s <;> rfl

lemma startsWithL_append (p t : List Char) : startsWithL (p ++ t) p = true := by
  induction p with
  | nil => exact startsWithL_nil t
  | cons a ps ih => simp [startsWithL, ih]

/-- Of two leading segments of the same list, the shorter is a leading segment
of the longer. -/
lemma startsWithL_shorter (s p q : List Char) (hp : startsWithL s p = true)
    (hq : startsWithL s q = true) (hlen : p.length ≤ q.length) :
    startsWithL q p = true := by
  induction p generalizing q s with
  | nil => exact startsWithL_nil q
  | cons a ps ih =>
    cases s with
    | nil => simp [startsWithL] at hp
    | cons c cs =>
      cases q with
      | nil => simp at hlen
      | cons b qs =>
        simp [startsWithL] at hp hq ⊢
        exact ⟨hq.1.symm.trans hp.1, ih cs qs hp.2 hq.2 (by simpa using hlen)⟩

lemma not_both_startsWithL (s p q : List Char) (hlen : p.length ≤ q.length)
    (hpq : startsWithL q p = false) (hq : startsWithL s q = true) :
    startsWithL s p = false := by
  cases hv : startsWithL s p
  · rfl
  · exact absurd (startsWithL_shorter s p q hv hq hlen) (by simp [hpq])

lemma not_both_startsWithL' (s p q : List Char) (hlen : q.length ≤ p.length)
    (hpq : startsWithL p q = false) (hq : startsWithL s q = true) :
    startsWithL s p = false := by
  cases hv : startsWithL s p
  · rfl
  · exact absurd (startsWithL_shorter s q p hq hv hlen) (by simp [hpq])

/-- First-match-wins cannot override a match: the eight scheme prefixes are
mutually exclusive, so a line whose lowercased form starts with the prefix of
a table entry is classified to exactly that entry. -/
lemma classify_of_match (line : List Char) (p : String) (pre : List Char)
    (hmem : (p, pre) ∈ protocols) (h : startsWithL (pyLower line) pre = true) :
    classifyLine line = some p := by
  have h8 := hmem
  simp [protocols] at h8
  obtain hx | hx | hx | hx | hx | hx | hx | hx := h8 <;> obtain ⟨rfl, rfl⟩ := hx
  · simp [classifyLine, protocols, List.find?, h]
  · have h1 : startsWithL (pyLower line) ("vless://".data) = false :=
      not_both_startsWithL _ _ _ (by decide) (by decide) h
    simp [classifyLine, protocols, List.find?, h, h1]
  · have h1 : startsWithL (pyLower line) ("vless://".data) = false :=
      not_both_startsWithL _ _ _ (by decide) (by decide) h
    have h2 : startsWithL (pyLower line) ("vmess://".data) = false :=
      not_both_startsWithL _ _ _ (by decide) (by decide) h
    simp [classifyLine, protocols, List.find?, h, h1, h2]
  · have h1 : startsWithL (pyLower line) ("vless://".data) = false :=
      not_both_startsWithL' _ _ _ (by decide) (by decide) h
    have h2 : startsWithL (pyLower line) ("vmess://".data) = false :=
      not_both_startsWithL' _ _ _ (by decide) (by decide) h
    have h3 : startsWithL (pyLower line) ("trojan://".data) = false :=
      not_both_startsWithL' _ _ _ (by decide) (by decide) h
    simp [classifyLine, protocols, List.find?, h, h1, h2, h3]
  · have h1 : startsWithL (pyLower line) ("vless://".data) = false :=
      not_both_startsWithL' _ _ _ (by decide) (by decide) h
    have h2 : startsWithL (pyLower line) ("vmess://".data) = false :=
      not_both_startsWithL' _ _ _ (by decide) (by decide) h
    have h3 : startsWithL (pyLower line) ("trojan://".data) = false :=
      not_both_startsWithL' _ _ _ (by decide) (by decide) h
    have h4 : startsWithL (pyLower line) ("ss://".data) = false :=
      not_both_startsWithL _ _ _ (by decide) (by decide) h
    simp [classifyLine, protocols, List.find?, h, h1, h2, h3, h4]
  · have h1 : startsWithL (pyLower line) ("vless://".data) = false :=
      not_both_startsWithL' _ _ _ (by decide) (by decide) h
    have h2 : startsWithL (pyLower line) ("vmess://".data) = false :=
      not_both_startsWithL' _ _ _ (by decide) (by decide) h
    have h3 : startsWithL (pyLower line) ("trojan://".data) = false :=
      not_both_startsWithL' _ _ _ (by decide) (by decide) h
    have h4 : startsWithL (pyLower line) ("ss://".data) = false :=
      not_both_startsWithL _ _ _ (by decide) (by decide) h
    have h5 : startsWithL (pyLower line) ("ssr://".data) = false :=
      not_both_startsWithL _ _ _ (by decide) (by decide) h
    simp [classifyLine, protocols, List.find?, h, h1, h2, h3, h4, h5]
  · have h1 : startsWithL (pyLower line) ("vless://".data) = false :=
      not_both_startsWithL _ _ _ (by decide) (by decide) h
    have h2 : startsWithL (pyLower line) ("vmess://".data) = false :=
      not_both_startsWithL _ _ _ (by decide) (by decide) h
    have h3 : startsWithL (pyLower line) ("trojan://".data) = false :=
      not_both_startsWithL' _ _ _ (by decide) (by decide) h
    have h4 : startsWithL (pyLower line) ("ss://".data) = false :=
      not_both_startsWithL _ _ _ (by decide) (by decide) h
    have h5 : startsWithL (pyLower line) ("ssr://".data) = false :=
      not_both_startsWithL _ _ _ (by decide) (by decide) h
    have h6 : startsWithL (pyLower line) ("http://".data) = false :=
      not_both_startsWithL _ _ _ (by decide) (by decide) h
    simp [classifyLine, protocols, List.find?, h, h1, h2, h3, h4, h5, h6]
  · have h1 : startsWithL (pyLower line) ("vless://".data) = false :=
      not_both_startsWithL _ _ _ (by decide) (by decide) h
    have h2 : startsWithL (pyLower line) ("vmess://".data) = false :=
      not_both_startsWithL _ _ _ (by decide) (by decide) h
    have h3 : startsWithL (pyLower line) ("trojan://".data) = false :=
      not_both_startsWithL _ _ _ (by decide) (by decide) h
    have h4 : startsWithL (pyLower line) ("ss://".data) = false :=
      not_both_startsWithL _ _ _ (by decide) (by decide) h
    have h5 : startsWithL (pyLower line) ("ssr://".data) = false :=
      not_both_startsWithL _ _ _ (by decide) (by decide) h
    have h6 : startsWithL (pyLower line) ("http://".data) = false :=
      not_both_startsWithL _ _ _ (by decide) (by decide) h
    have h7 : startsWithL (pyLower line) ("https://".data) = false :=
      not_both_startsWithL _ _ _ (by decide) (by decide) h
    simp [classifyLine, protocols, List.find?, h, h1, h2, h3, h4, h5, h6, h7]

/-- C8: classifier prefix matching is case-insensitive on the scheme: for any
suffix x the lines VLESS://x and vless://x are both classified to the vless
bucket, and in general a line is classified to a protocol whenever its
lowercased form starts with the lowercase prefix of that protocol in the
table. -/
theorem c8_case_insensitive :
    (∀ x : List Char,
       classifyLine ("VLESS://".data ++ x) = some "vless"
       ∧ classifyLine ("vless://".data ++ x) = some "vless")
  ∧ (∀ (line : List Char) (p : String) (pre : List Char),
       (p, pre) ∈ protocols → startsWithL (pyLower line) pre = true →
       classifyLine line = some p) := by
  refine ⟨?_, classify_of_match⟩
  intro x
  constructor
  · apply classify_of_match _ "vless" ("vless://".data) (by simp [protocols])
    rw [pyLower, List.map_append]
    have hu : ("VLESS://".data).map Char.toLower = "vless://".data := by decide
    rw [hu]
    exact startsWithL_append _ _
  · apply classify_of_match _ "vless" ("vless://".data) (by simp [protocols])
    rw [pyLower, List.map_append]
    have hl : ("vless://".data).map Char.toLower = "vless://".data := by decide
    rw [hl]
    exact startsWithL_append _ _

/-- Witness for C8 at a concrete mixed-case line. -/
theorem c8_witness : classifyLine "SS://upper".data = some "ss" :=
  c8_case_insensitive.2 "SS://upper".data "ss" ("ss://".data) (by decide) (by decide)

/-! The merger: structure of merged_content. -/

lemma char_toNat_inj (x y : Char) (h : x.toNat = y.toNat) : x = y :=
  Char.eq_of_val_eq (UInt32.eq_of_val_eq (Fin.ext h))

lemma lexLe_trans (a b c : List Char) (hab : lexLe a b = true) (hbc : lexLe b c = true) :
    lexLe a c = true := by
  induction a generalizing b c with
  | nil => cases c <;> rfl
  | cons x xs ih =>
    cases b with
    | nil => simp [lexLe] at hab
    | cons y ys =>
      cases c with
      | nil => simp [lexLe] at hbc
      | cons z zs =>
        simp [lexLe] at hab hbc ⊢
        rcases hab with h1 | ⟨he1, h2⟩
        · rcases hbc with g1 | ⟨ge1, g2⟩
          · exact Or.inl (Nat.lt_trans h1 g1)
          · exact Or.inl (ge1 ▸ h1)
        · rcases hbc with g1 | ⟨ge1, g2⟩
          · exact Or.inl (he1 ▸ g1)
          · exact Or.inr ⟨he1.trans ge1, ih ys zs h2 g2⟩

lemma lexLe_total (a b : List Char) : lexLe a b = true ∨ lexLe b a = true := by
  induction a generalizing b with
  | nil => exact Or.inl (by cases b <;> rfl)
  | cons x xs ih =>
    cases b with
    | nil => exact Or.inr rfl
    | cons y ys =>
      rcases Nat.lt_trichotomy x.toNat y.toNat with h | h | h
      · exact Or.inl (by simp [lexLe, h])
      · have hxy : x = y := char_toNat_inj x y h
        subst hxy
        rcases ih ys with h2 | h2
        · exact Or.inl (by simp [lexLe, h2])
        · exact Or.inr (by simp [lexLe, h2])
      · exact Or.inr (by simp [lexLe, h])

lemma foldl_mergeStep (fs : TxtFiles) (acc : List (List Char)) :
    fs.foldl mergeStep acc =
      acc ++ (fs.filter (fun f => !(pyStrip f.2).isEmpty)).flatMap
        (fun f => [headerOf f.1, pyStrip f.2, []]) := by
  induction fs generalizing acc with
  | nil => simp
  | cons f rest ih =>
    by_cases hf : (pyStrip f.2).isEmpty
    · rw [List.foldl_cons, show mergeStep acc f = acc from by simp [mergeStep, hf], ih]
      simp [List.filter_cons, hf]
    · rw [List.foldl_cons,
        show mergeStep acc f = acc ++ [headerOf f.1, pyStrip f.2, []] from by
          simp [mergeStep, hf],
        ih]
      simp [List.filter_cons, hf]

/-- C6: merged_content is exactly one block of header line, stripped content
and blank separator per input .txt file whose stripped content is non-empty,
in lexicographic file-name order; files with empty stripped content contribute
nothing. -/
theorem c6_merge_structure (files : TxtFiles) :
    merge_files files =
      ((files.mergeSort (fun a b => lexLe a.1 b.1)).filter
          (fun f => !(pyStrip f.2).isEmpty)).flatMap
        (fun f => [headerOf f.1, pyStrip f.2, []])
  ∧ ((files.mergeSort (fun a b => lexLe a.1 b.1)).filter
        (fun f => !(pyStrip f.2).isEmpty)).Pairwise (fun a b => lexLe a.1 b.1 = true) := by
  constructor
  · unfold merge_files
    rw [foldl_mergeStep]
    simp
  · refine List.Pairwise.sublist (List.filter_sublist _) ?_
    exact List.sorted_mergeSort
      (fun a b c hab hbc => lexLe_trans a.1 b.1 c.1 hab hbc)
      (fun a b => by rcases lexLe_total a.1 b.1 with h | h <;> simp [h])
      files

/-! The classifier output files. -/

lemma filter_map_eq_filterMap {α β : Type} (l : List α) (p : α → Bool) (f : α → β) :
    (l.filter p).map f = l.filterMap (fun a => if p a then some (f a) else none) := by
  induction l with
  | nil => simp
  | cons a as ih => by_cases hp : p a <;> simp [List.filter_cons, hp, ih]

/-- Closed form of the files written by split_by_protocol. -/
lemma split_by_protocol_eq (lines : List (List Char)) :
    split_by_protocol lines =
      protocols.filterMap (fun p =>
        if (bucketOf lines p.1).isEmpty then none
        else some (p.1 ++ ".txt", List.intercalate ['\n'] (bucketOf lines p.1)))
      ++ (if (othersOf lines).isEmpty then []
          else [("other.txt", List.intercalate ['\n'] (othersOf lines))]) := by
  unfold split_by_protocol writeFiles
  rw [splitLines_eq]
  congr 1
  rw [List.filter_map, List.map_map, filter_map_eq_filterMap]
  congr 1
  funext p
  by_cases hc : (bucketOf lines p.1).isEmpty <;> simp [Function.comp, hc]

/-- C7: an output file named protocol.txt exists exactly for the non-empty
protocol buckets (an empty bucket writes no file at all), its content is the
bucket lines joined by newline in original relative order, and other.txt is
written exactly when the other bucket is non-empty. -/
theorem c7_output_files (lines : List (List Char)) :
    split_by_protocol lines =
      protocols.filterMap (fun p =>
        if (bucketOf lines p.1).isEmpty then none
        else some (p.1 ++ ".txt", List.intercalate ['\n'] (bucketOf lines p.1)))
      ++ (if (othersOf lines).isEmpty then []
          else [("other.txt", List.intercalate ['\n'] (othersOf lines))]) :=
  split_by_protocol_eq lines

/-! The frame property of the write phase. -/

lemma txt_cancel (a b : String) (h : a ++ ".txt" = b ++ ".txt") : a = b := by
  have hd := congrArg String.data h
  rw [String.data_append, String.data_append] at hd
  have h2 := List.append_cancel_right hd
  cases a with
  | mk da =>
    cases b with
    | mk db => exact congrArg String.mk (by simpa using h2)

lemma mem_split_names (lines : List (List Char)) (out : String × List Char)
    (h : out ∈ split_by_protocol lines) :
    (∃ pr ∈ protocols, out.1 = pr.1 ++ ".txt" ∧ bucketOf lines pr.1 ≠ [])
    ∨ (out.1 = "other.txt" ∧ othersOf lines ≠ []) := by
  rw [split_by_protocol_eq] at h
  rcases List.mem_append.mp h with hl | hr
  · rcases List.mem_filterMap.mp hl with ⟨pr, hpr, hout⟩
    by_cases hc : (bucketOf lines pr.1).isEmpty
    · rw [if_pos hc] at hout
      exact absurd hout (by simp)
    · rw [if_neg hc] at hout
      refine Or.inl ⟨pr, hpr, ?_, ?_⟩
      · rw [← Option.some_inj.mp hout]
      · simpa [List.isEmpty_iff] using hc
  · by_cases hc : (othersOf lines).isEmpty
    · rw [if_pos hc] at hr
      exact absurd hr (by simp)
    · rw [if_neg hc] at hr
      have : out = ("other.txt", List.intercalate ['\n'] (othersOf lines)) := by
        simpa using hr
      exact Or.inr ⟨by rw [this], by simpa [List.isEmpty_iff] using hc⟩

lemma foldl_updateFs_of_not_written (outs : List (String × List Char))
    (fs : String → Option (List Char)) (name : String)
    (h : ∀ out ∈ outs, out.1 ≠ name) :
    outs.foldl updateFs fs name = fs name := by
  induction outs generalizing fs with
  | nil => rfl
  | cons o os ih =>
    rw [List.foldl_cons, ih (updateFs fs o) (fun x hx => h x (List.mem_cons_of_mem _ hx))]
    show (if name = o.1 then some o.2 else fs name) = fs name
    exact if_neg fun e => h o (List.mem_cons_self _ _) e.symm

/-- C9: when a protocol bucket (or the other bucket) is empty in the current
run, split_by_protocol writes nothing under that file name, so a pre-existing
protocol.txt (or other.txt) in the output directory keeps its old content. -/
theorem c9_stale_files (lines : List (List Char)) (fs : String → Option (List Char)) :
    (∀ pr ∈ protocols, bucketOf lines pr.1 = [] →
       splitEffect lines fs (pr.1 ++ ".txt") = fs (pr.1 ++ ".txt"))
  ∧ (othersOf lines = [] → splitEffect lines fs "other.txt" = fs "other.txt") := by
  constructor
  · intro pr hpr hempty
    apply foldl_updateFs_of_not_written
    intro out hout heq
    rcases mem_split_names lines out hout with ⟨q, _, hname, hne⟩ | ⟨hname, hne⟩
    · rw [hname] at heq
      have hq : q.1 = pr.1 := txt_cancel _ _ heq
      exact hne (hq ▸ hempty)
    · rw [hname] at heq
      have hpr1 : pr.1 = "other" := txt_cancel _ _ heq.symm
      have hmem : pr.1 ∈ protocols.map (fun q => q.1) := List.mem_map_of_mem _ hpr
      rw [hpr1] at hmem
      exact other_not_protocol hmem
  · intro hempty
    apply foldl_updateFs_of_not_written
    intro out hout heq
    rcases mem_split_names lines out hout with ⟨q, hq, hname, hne⟩ | ⟨hname, hne⟩
    · rw [hname] at heq
      have hq1 : q.1 = "other" := txt_cancel _ _ heq
      have hmem : q.1 ∈ protocols.map (fun r => r.1) := List.mem_map_of_mem _ hq
      rw [hq1] at hmem
      exact other_not_protocol hmem
    · exact hne hempty

/-- Witness for C9: with no input lines every bucket is empty and a
pre-existing vless.txt is untouched. -/
theorem c9_witness :
    splitEffect [] (fun _ => some "stale".data) ("vless" ++ ".txt")
      = (fun _ => some "stale".data) ("vless" ++ ".txt") :=
  (c9_stale_files [] (fun _ => some "stale".data)).1 ("vless", "vless://".data)
    (by decide) rfl

/-! Fingerprinting and the change marker. -/

lemma toHex_length (bytes : List Nat) : (toHex bytes).length = 2 * bytes.length := by
  induction bytes with
  | nil => rfl
  | cons b bs ih =>
    simp only [toHex] at ih ⊢
    simp [List.flatMap_cons, ih]
    omega

lemma hexChar_not_ws (n : Nat) : (hexChar n).isWhitespace = false := by
  have h16 := Nat.mod_lt n (show 0 < 16 by omega)
  unfold hexChar
  interval_cases h : (n % 16) <;> decide

lemma dropWhile_of_none {α : Type} (p : α → Bool) (m : List α)
    (hm : ∀ c ∈ m, p c = false) : m.dropWhile p = m := by
  cases m with
  | nil => rfl
  | cons a as => simp [List.dropWhile_cons, hm a (List.mem_cons_self _ _)]

lemma pyStrip_of_no_ws (l : List Char) (h : ∀ c ∈ l, c.isWhitespace = false) :
    pyStrip l = l := by
  unfold pyStrip
  rw [dropWhile_of_none _ _ h,
    dropWhile_of_none _ _ (fun c hc => h c (List.mem_reverse.mp hc)),
    List.reverse_reverse]

lemma calculate_hash_no_ws (sha256 : List Nat → List Nat) (dir : Option DirEntries) :
    ∀ c ∈ calculate_hash sha256 dir, c.isWhitespace = false := by
  cases dir with
  | none =>
    intro c hc
    have he : calculate_hash sha256 none = ['e', 'm', 'p', 't', 'y'] := rfl
    rw [he] at hc
    simp at hc
    rcases hc with rfl | rfl | rfl | rfl | rfl <;> rfl
  | some entries =>
    intro c hc
    have : c ∈ toHex (sha256 (hashInput entries)) := hc
    rcases List.mem_flatMap.mp this with ⟨b, _, hcb⟩
    simp at hcb
    rcases hcb with rfl | rfl <;> exact hexChar_not_ws _

/-- C5: calculate_hash returns the sentinel "empty" exactly when the directory
does not exist; on an existing directory it returns a hex digest, and the hex
rendering of a 32-byte digest never equals the string "empty". -/
theorem c5_empty_sentinel (sha256 : List Nat → List Nat)
    (hsha : ∀ bs, (sha256 bs).length = 32) (dir : Option DirEntries) :
    (calculate_hash sha256 dir = "empty".data ↔ dir = none)
  ∧ (∀ bytes : List Nat, bytes.length = 32 → toHex bytes ≠ "empty".data) := by
  have hhex : ∀ bytes : List Nat, bytes.length = 32 → toHex bytes ≠ "empty".data := by
    intro bytes hlen he
    have hlen2 := congrArg List.length he
    rw [toHex_length, hlen] at hlen2
    have h5 : ("empty".data).length = 5 := rfl
    rw [h5] at hlen2
    omega
  refine ⟨⟨?_, ?_⟩, hhex⟩
  · intro h
    cases dir with
    | none => rfl
    | some entries => exact absurd h (hhex _ (hsha _))
  · intro h
    subst h
    rfl

/-- Witness for C5 with a constant digest function of output length 32. -/
theorem c5_witness :
    calculate_hash (fun _ => List.replicate 32 0) (some []) = "empty".data
      ↔ (some [] : Option DirEntries) = none :=
  (c5_empty_sentinel (fun _ => List.replicate 32 0) (fun _ => by simp) (some [])).1

/-- C4: check_changes always ends with the marker holding the newly computed
fingerprint, whatever the change outcome was; consequently a second
consecutive invocation on an unchanged directory reports unchanged. -/
theorem c4_marker_overwrite :
    (∀ (sha256 : List Nat → List Nat) (dir : Option DirEntries)
       (marker : Option (List Char)),
       (check_changes sha256 dir marker).2 = calculate_hash sha256 dir)
  ∧ (∀ (sha256 : List Nat → List Nat) (dir : Option DirEntries)
       (marker : Option (List Char)),
       (check_changes sha256 dir (some (check_changes sha256 dir marker).2)).1.1
         = false) := by
  constructor
  · intro sha256 dir marker
    rfl
  · intro sha256 dir marker
    simp [check_changes, pyStrip_of_no_ws _ (calculate_hash_no_ws sha256 dir)]

/-! The orchestrator and the exit code. -/

lemma classifyGuard_ok (body : Except String (List (String × List Char))) :
    classifyGuard body = Except.ok () := by
  cases body <;> rfl

/-- C2 counterexample: with a change detected and merge and report succeeding,
an exception raised while the classifier opens the merged file is swallowed
inside split_by_protocol (runner.py 211-212): run still returns success, so
the claim that this error makes the orchestrator abort and report failure is
false on the code. -/
theorem c2_counterexample :
    run (fun _ => []) none none false (Except.ok [])
        (fun _ => Except.error "cannot open merged file") (Except.ok ())
      = (true, [Stage.merge, Stage.classify, Stage.report]) := rfl

/-- C2 amended: an exception escaping merge_files aborts the remaining stages
and run returns the failure result, an exception escaping generate_report
makes run return the failure result, but an exception inside split_by_protocol
is caught there and logged, so the run outcome never depends on the classifier
body result; in particular a classifier open failure does not fail the run. -/
theorem c2_stage_failure_amended :
    (∀ sha256 dir marker force cb rr e,
       (run sha256 dir marker force (Except.error e) cb rr).1 = false
       ∧ Stage.classify ∉ (run sha256 dir marker force (Except.error e) cb rr).2
       ∧ Stage.report ∉ (run sha256 dir marker force (Except.error e) cb rr).2)
  ∧ (∀ sha256 dir marker force mr cb e,
       (run sha256 dir marker force mr cb (Except.error e)).1 = false)
  ∧ (∀ sha256 dir marker force mr cb cb2 rr,
       run sha256 dir marker force mr cb rr = run sha256 dir marker force mr cb2 rr) := by
  refine ⟨?_, ?_, ?_⟩
  · intro sha256 dir marker force cb rr e
    by_cases hb : (!(check_changes sha256 dir marker).1.1 && !force) = true
    · simp [run, hb]
    · simp [run, hb]
  · intro sha256 dir marker force mr cb e
    by_cases hb : (!(check_changes sha256 dir marker).1.1 && !force) = true
    · simp [run, hb]
    · cases mr <;> simp [run, hb, classifyGuard_ok]
  · intro sha256 dir marker force mr cb cb2 rr
    cases mr <;> simp [run, classifyGuard_ok]

/-- Witness for C2 amended at concrete stage outcomes. -/
theorem c2_amended_witness :
    run (fun _ => []) none none true (Except.ok [])
        (fun _ => Except.error "boom") (Except.ok ())
      = run (fun _ => []) none none true (Except.ok [])
          (fun _ => Except.ok []) (Except.ok ()) :=
  c2_stage_failure_amended.2.2 _ _ _ _ _ _ _ _

/-- C3: main exits 0 exactly when run returned the positive result; a failed
run exits 1, and a run skipped for lack of changes without the force flag also
exits 1. -/
theorem c3_exit_code :
    (∀ sha256 dir marker force mr cb rr,
       (main_exit sha256 dir marker force mr cb rr = 0
         ↔ (run sha256 dir marker force mr cb rr).1 = true)
       ∧ ((run sha256 dir marker force mr cb rr).1 = false →
            main_exit sha256 dir marker force mr cb rr = 1))
  ∧ (∀ sha256 dir marker mr cb rr,
       (check_changes sha256 dir marker).1.1 = false →
         main_exit sha256 dir marker false mr cb rr = 1) := by
  constructor
  · intro sha256 dir marker force mr cb rr
    constructor
    · unfold main_exit
      cases hr : (run sha256 dir marker force mr cb rr).1 <;> simp [hr]
    · intro hr
      unfold main_exit
      simp [hr]
  · intro sha256 dir marker mr cb rr hnc
    simp [main_exit, run, hnc]

/-- Witness for C3: a second run on an unchanged empty corpus without force
exits with code 1. -/
theorem c3_witness :
    main_exit (fun _ => []) none (some "empty".data) false (Except.ok [])
        (fun _ => Except.ok []) (Except.ok ()) = 1 :=
  c3_exit_code.2 (fun _ => []) none (some "empty".data) (Except.ok [])
    (fun _ => Except.ok []) (Except.ok ()) (by decide)

end HB
